import Mathlib

/-!
Shallow embedding of the melwalletd wallet store (src/multiwallet.rs) and of the
daemon state and reconciliation engine (src/state.rs).  External collaborator
types (the themelio-stf chain types, the ValClient network handle, the random
number generator) are abstracted: transactions carry an opaque numeric hash,
the ledger client is a record of response functions, and random draws are
explicit parameters.  Filesystem state is an association list from file name
to parsed record (with a failed parse represented by `none`).
-/

/-- Association-list lookup, modelling map lookup (BTreeMap / DashMap get). -/
def alookup {α : Type} {β : Type} [DecidableEq α] : List (α × β) → α → Option β
  | [], _ => none
  | (k, v) :: rest, a => if k = a then some v else alookup rest a

/-- Association-list update, modelling map insert that replaces the value of
an existing key (BTreeMap::insert / DashMap::insert semantics). -/
def assocSet {α : Type} {β : Type} [DecidableEq α] : List (α × β) → α → β → List (α × β)
  | [], k, v => [(k, v)]
  | (k2, v2) :: rest, k, v =>
    if k2 = k then (k, v) :: rest else (k2, v2) :: assocSet rest k v

/-- Abstraction of themelio_stf::CoinData: only the fields the embedded code
reads (covhash for change detection; value and denom carried along). -/
structure CoinData where
  covhash : Nat
  value : Nat
  denom : Nat
deriving DecidableEq

/-- Abstraction of themelio_stf::CoinDataHeight: a coin datum together with
the block height at which the ledger confirmed it. -/
structure CoinDataHeight where
  coin_data : CoinData
  height : Nat
deriving DecidableEq

/-- A coin identifier: creating transaction hash and output index. -/
abbrev CoinID := Nat × Nat

/-- Abstraction of themelio_stf::Transaction: an opaque signature-independent
hash plus the output list; no other field is read by the embedded code. -/
structure Transaction where
  hash_nosigs : Nat
  outputs : List CoinData
deriving DecidableEq

/-- Transaction::output_coinid: coin id of the i-th output. -/
def Transaction.output_coinid (tx : Transaction) (i : Nat) : CoinID :=
  (tx.hash_nosigs, i)

/-- Abstraction of a melvm covenant: only its hash (the address) is read. -/
structure Covenant where
  hash : Nat
deriving DecidableEq

/-- Covenant::std_ed25519_pk_new, abstracted: the covenant produced from a
public key, with the key standing in for the covenant hash. -/
def Covenant.std_ed25519_pk_new (pk : Nat) : Covenant := ⟨pk⟩

/-- The per-wallet record.  Modelled from the spec: walletdata.rs is not under
src/; the WalletRecord entity of spec section 3 gives the fields the embedded
code reads: the covenant of the wallet (my_covenant), the unspent-coin map keyed by coin id, and the
in-flight map from transaction hash to transaction body. -/
structure WalletData where
  my_covenant : Covenant
  unspent_coins : List (CoinID × CoinDataHeight)
  tx_in_progress : List (Nat × Transaction)
deriving DecidableEq

/-- Modelled from the spec: WalletData::new lives in walletdata.rs, absent
from src/; §4.1 says a successful create "writes a new, empty WalletRecord". -/
def WalletData.new (cov : Covenant) : WalletData := ⟨cov, [], []⟩

/-- Modelled from the spec: WalletData::insert_coin lives in walletdata.rs,
absent from src/; spec section 4.3 step 5 says the step records the coin into
the unspent set of the wallet at that height. -/
def WalletData.insert_coin (w : WalletData) (k : CoinID) (v : CoinDataHeight) : WalletData :=
  { w with unspent_coins := assocSet w.unspent_coins k v }

/-- Wallet-store error taxonomy (spec §7: InvalidName, IoFailure). -/
inductive StoreError
  | invalidName
  | ioError
deriving DecidableEq

/-- The wallet directory: file name to parsed record; `none` records a file
that is present but fails to load. -/
abbrev Fs := List (String × Option WalletData)

/-- valid_wallet_name from multiwallet.rs: every character ASCII alphanumeric
or underscore (Rust chars().all, hence vacuously true on the empty name). -/
def valid_wallet_name (name : String) : Bool :=
  name.data.all (fun x => x.isAlphanum || x == '_')

/-- The characters of the ".json" extension. -/
def jsonExt : List Char := ['.', 'j', 's', 'o', 'n']

/-- v.ends_with(".json") on the underlying character list. -/
def ends_with_json (v : String) : Bool :=
  List.isSuffixOf jsonExt v.data

/-- Rust str::replace(".json", "") : delete every non-overlapping occurrence
of ".json", scanning left to right. -/
def stripJson : List Char → List Char
  | '.' :: 'j' :: 's' :: 'o' :: 'n' :: rest => stripJson rest
  | c :: rest => c :: stripJson rest
  | [] => []

/-- MultiWallet::list, given the directory entries already read: keep entries
ending in ".json", delete every ".json" occurrence, keep valid names. -/
def MultiWallet.list (entries : List String) : List String :=
  ((entries.filter ends_with_json).map (fun v => String.mk (stripJson v.data))).filter
    (fun v => valid_wallet_name v)

/-- Outcome of running MultiWallet::list including the directory read: the
source calls std::fs::read_dir(..).unwrap(), so a failed read (modelled as
`none`) is a panic, not an error return. -/
inductive ListOutcome
  | panicked
  | ok (names : List String)
deriving DecidableEq

/-- MultiWallet::list with the read_dir step: `none` models an unreadable
directory, on which the unwrap in the source panics. -/
def MultiWallet.listRun (dirRead : Option (List String)) : ListOutcome :=
  match dirRead with
  | none => .panicked
  | some entries => .ok (MultiWallet.list entries)

/-- Result of MultiWallet::get_wallet. -/
inductive GetOutcome
  | ok (w : WalletData)
  | err (e : StoreError)
deriving DecidableEq

/-- MultiWallet::get_wallet: look up the cache by name; on a miss, open
"<name>.json" from the directory (AcidJson::open), any open failure being an
I/O-style error.  The Bool reports whether the filesystem was touched.  The
cache insertion performed by or_try_insert_with on a successful miss is not
modelled (the function is pure); no name validation is performed. -/
def MultiWallet.get_wallet (cache : List (String × WalletData)) (fs : Fs)
    (name : String) : GetOutcome × Bool :=
  match alookup cache name with
  | some w => (.ok w, false)
  | none =>
    match alookup fs (name ++ ".json") with
    | some (some w) => (.ok w, true)
    | some none => (.err .ioError, true)
    | none => (.err .ioError, true)

/-- Result of MultiWallet::create_wallet: the new directory on success. -/
inductive CreateOutcome
  | ok (fs : Fs)
  | err (e : StoreError)
deriving DecidableEq

/-- MultiWallet::create_wallet: bail with an invalid-name error unless every
character is alphanumeric or underscore, else atomically write a fresh record
to "<name>.json", silently overwriting any record of the same name. -/
def MultiWallet.create_wallet (fs : Fs) (name : String) (cov : Covenant) : CreateOutcome :=
  if valid_wallet_name name then
    .ok (assocSet fs (name ++ ".json") (some (WalletData.new cov)))
  else .err .invalidName

/-- AppState::list_wallets, restricted to the (name, record) pairs it builds:
every listed name is looked up and names whose get_wallet fails are silently
dropped (filter_map over .ok()).  The per-wallet summary arithmetic is not
read by any claim and is elided. -/
def AppState.list_wallets (cache : List (String × WalletData)) (fs : Fs) :
    List (String × WalletData) :=
  (MultiWallet.list (fs.map Prod.fst)).filterMap (fun v =>
    match (MultiWallet.get_wallet cache fs v).1 with
    | .ok w => some (v, w)
    | .err _ => none)

/-- AppState::create_wallet: refuse (None) when the name is already a key of
list_wallets; otherwise generate a keypair (pk, sk — the random draw is an
explicit parameter), build the standard covenant, and delegate to the store,
returning the secret key on success and None on a store error. -/
def AppState.create_wallet (cache : List (String × WalletData)) (fs : Fs)
    (name : String) (pk sk : Nat) : Option Nat × Fs :=
  if name ∈ (AppState.list_wallets cache fs).map Prod.fst then (none, fs)
  else
    match MultiWallet.create_wallet fs name (Covenant.std_ed25519_pk_new pk) with
    | .ok fs2 => (some sk, fs2)
    | .err _ => (none, fs)

/-- Modelled from the spec: the secrets module (secrets.rs) is not under src/.
§3 SecretRecord: a password-encrypted secret is "ciphertext + parameters
sufficient to re-derive the decryption key from a user-supplied password";
decryption is modelled as succeeding exactly when the supplied password
matches the password stored in the record. -/
structure EncryptedSK where
  key : Nat
  password : String
deriving DecidableEq

/-- Modelled from the spec: decryption of a PasswordEncrypted record fails on
a wrong password and yields the stored key on the right one (§4.2 unlock). -/
def EncryptedSK.decrypt (e : EncryptedSK) (pwd : String) : Option Nat :=
  if pwd = e.password then some e.key else none

/-- Modelled from the spec: PersistentSecret (secrets.rs, absent from src/)
has the two variants named in §3: Plaintext raw key bytes, or
PasswordEncrypted ciphertext. -/
inductive PersistentSecret
  | plaintext (sk : Nat)
  | passwordEncrypted (enc : EncryptedSK)
deriving DecidableEq

/-- The unlocked_signers map: wallet name to unlocked signing key. -/
abbrev Signers := List (String × Nat)

/-- AppState::get_signer: the live capability if unlocked, else none. -/
def AppState.get_signer (signers : Signers) (name : String) : Option Nat :=
  alookup signers name

/-- AppState::unlock_signer: load the persisted secret (None when absent); a
Plaintext record installs the signer unconditionally; a PasswordEncrypted
record requires a password (pwd? short-circuits) and a successful decrypt,
then installs the decrypted signer; every failure returns None with the
signer map untouched. -/
def AppState.unlock_signer (secrets : String → Option PersistentSecret)
    (signers : Signers) (name : String) (pwd : Option String) :
    Option Unit × Signers :=
  match secrets name with
  | none => (none, signers)
  | some (.plaintext sk) => (some (), assocSet signers name sk)
  | some (.passwordEncrypted enc) =>
    match pwd with
    | none => (none, signers)
    | some p =>
      match enc.decrypt p with
      | none => (none, signers)
      | some sk => (some (), assocSet signers name sk)

/-- The remote ledger client (themelio_nodeprot::ValClient), abstracted to the
responses the reconciliation step consumes: whether snapshot() succeeds, and
the reply of snapshot.get_coin — `none` is a failed query, `some none` an
unconfirmed coin, `some (some cdh)` a coin confirmed at cdh.height.  The
send_tx reply is not modelled: the source only logs it. -/
structure Ledger where
  snapshotOk : Bool
  getCoin : CoinID → Option (Option CoinDataHeight)

/-- The outcome of one confirm_one invocation: the wallet record and the
process-wide retransmitted set after the step, whether the step returned an
error, the transaction handed to send_tx (if any), and the trace of coin ids
queried through get_coin, in order. -/
structure ConfirmResult where
  wallet : WalletData
  sent : Finset Nat
  err : Bool
  sentTx : Option Transaction
  queried : List CoinID
deriving DecidableEq

/-- The change-output indexes of confirm_one: positions of the outputs whose
covhash equals the covenant hash of the wallet itself, in output order. -/
def changeIndexes (tx : Transaction) (covhash : Nat) : List Nat :=
  ((tx.outputs.enum).filter (fun v => v.2.covhash = covhash)).map Prod.fst

/-- The check-path loop of confirm_one: for each change index in order, query
get_coin of the coin id of that output (the index cast to u8, hence mod 256);
a failed query aborts, keeping the mutations made so far, as the question-mark
operator in the source does; an
unconfirmed coin breaks out of the loop; a confirmed coin is inserted into
the wallet at the reported height and the hash of the transaction removed from the
retransmitted set. -/
def checkLoop (L : Ledger) (tx : Transaction) :
    List Nat → WalletData → Finset Nat → ConfirmResult
  | [], w, s => ⟨w, s, false, none, []⟩
  | i :: rest, w, s =>
    let cid := tx.output_coinid (i % 256)
    match L.getCoin cid with
    | none => ⟨w, s, true, none, [cid]⟩
    | some none => ⟨w, s, false, none, [cid]⟩
    | some (some cdh) =>
      let r := checkLoop L tx rest (w.insert_coin cid cdh) (s.erase tx.hash_nosigs)
      { r with queried := cid :: r.queried }

/-- confirm_one from state.rs.  The in-progress values are read in map order;
an empty set returns Ok at once; a failed snapshot aborts with an error
before any mutation; otherwise the transaction at the random index txIdx is
chosen, and the random u8 draw j (from the range 0..10) decides: on j = 0 or
on a hash not yet in the retransmitted set (which the insert call records),
the transaction is retransmitted; otherwise the check path scans its change
outputs. -/
def confirm_one (w : WalletData) (sent : Finset Nat) (L : Ledger)
    (txIdx j : Nat) : ConfirmResult :=
  let in_progress := w.tx_in_progress.map Prod.snd
  if in_progress = [] then ⟨w, sent, false, none, []⟩
  else if L.snapshotOk = true then
    let random_tx := in_progress.getD txIdx ⟨0, []⟩
    if j = 0 then ⟨w, sent, false, some random_tx, []⟩
    else if random_tx.hash_nosigs ∈ sent then
      checkLoop L random_tx (changeIndexes random_tx w.my_covenant.hash) w sent
    else ⟨w, insert random_tx.hash_nosigs sent, false, some random_tx, []⟩
  else ⟨w, sent, true, none, []⟩

/-- Transcription of the words of the spec for the check path (refinement side of
C1): scan the listed coin ids in order; a coin the ledger reports confirmed
at some height is recorded into the unspent set at that height and the
transaction hash h is removed from the retransmission-marker set; a coin
reported not confirmed stops the scan.  Returns the final wallet, the final
marker set, and the coin ids scanned. -/
def specScan (L : Ledger) (h : Nat) :
    List CoinID → WalletData → Finset Nat → WalletData × Finset Nat × List CoinID
  | [], w, s => (w, s, [])
  | c :: rest, w, s =>
    match L.getCoin c with
    | some (some cdh) =>
      let r := specScan L h rest (w.insert_coin c cdh) (s.erase h)
      (r.1, r.2.1, c :: r.2.2)
    | _ => (w, s, [c])

/-- A concrete covenant used to instantiate theorems on concrete inputs. -/
def covW : Covenant := ⟨7⟩

/-- A concrete in-flight transaction: output 0 pays the covW address, output 1
pays a foreign address. -/
def txW : Transaction := ⟨5, [⟨7, 10, 0⟩, ⟨3, 4, 0⟩]⟩

/-- A concrete wallet holding txW in its in-flight map. -/
def walletW : WalletData := ⟨covW, [], [(5, txW)]⟩

/-- A concrete ledger: snapshots succeed, coin (5, 0) is confirmed at height
42, every other queried coin is reported unconfirmed. -/
def ledgerW : Ledger :=
  ⟨true, fun c => if c = (5, 0) then some (some ⟨⟨7, 10, 0⟩, 42⟩) else some none⟩

/-- A concrete ledger whose snapshot call fails. -/
def ledgerDown : Ledger := ⟨false, fun _ => some none⟩

/-- A concrete secret store: a plaintext record under "plain" and a
password-encrypted record (password "pw") under "enc". -/
def secretsW : String → Option PersistentSecret := fun n =>
  if n = "plain" then some (.plaintext 11)
  else if n = "enc" then some (.passwordEncrypted ⟨13, "pw"⟩)
  else none

/-- A concrete wallet directory: "w.json" loads, "bad.json" fails to load. -/
def fsW : Fs := [("w.json", some (WalletData.new covW)), ("bad.json", none)]

/-- Looking up the key just written by assocSet yields the written value
(map-update semantics of BTreeMap::insert and DashMap::insert). -/
theorem alookup_assocSet {α β : Type} [DecidableEq α] (l : List (α × β)) (k : α) (v : β) :
    alookup (assocSet l k v) k = some v := by
  induction l with
  | nil => simp [assocSet, alookup]
  | cons p rest ih =>
    obtain ⟨k2, v2⟩ := p
    by_cases h : k2 = k
    · simp [assocSet, h, alookup]
    · simp [assocSet, h, alookup, ih]

/-- stripJson keeps a leading character that is not a dot. -/
theorem stripJson_cons_ne_dot (c : Char) (rest : List Char) (h : c ≠ '.') :
    stripJson (c :: rest) = c :: stripJson rest := by
  rw [stripJson.eq_def]
  split
  next r2 heq =>
    rw [List.cons.injEq] at heq
    exact absurd heq.1 h
  next c2 r2 heq =>
    rw [List.cons.injEq] at heq
    rw [heq.1, heq.2]
  next heq => exact absurd heq (by simp)

/-- When no get_coin query fails on the scanned indexes, the check-path loop
of confirm_one computes exactly the scan described by the spec (specScan) on
the corresponding coin ids, returns Ok, and sends nothing. -/
theorem checkLoop_eq_specScan (L : Ledger) (tx : Transaction) :
    ∀ (idxs : List Nat) (w : WalletData) (s : Finset Nat),
      (∀ i ∈ idxs, L.getCoin (tx.output_coinid (i % 256)) ≠ none) →
      ((checkLoop L tx idxs w s).wallet, (checkLoop L tx idxs w s).sent,
          (checkLoop L tx idxs w s).queried)
          = specScan L tx.hash_nosigs (idxs.map (fun i => tx.output_coinid (i % 256))) w s
        ∧ (checkLoop L tx idxs w s).err = false
        ∧ (checkLoop L tx idxs w s).sentTx = none := by
  intro idxs
  induction idxs with
  | nil => intro w s h; simp [checkLoop, specScan]
  | cons i rest ih =>
    intro w s h
    have hi := h i (List.mem_cons_self i rest)
    cases hL : L.getCoin (tx.output_coinid (i % 256)) with
    | none => exact absurd hL hi
    | some o =>
      cases o with
      | none => simp [checkLoop, specScan, hL]
      | some cdh =>
        obtain ⟨he, h2, h3⟩ := ih (w.insert_coin (tx.output_coinid (i % 256)) cdh)
          (s.erase tx.hash_nosigs) (fun i2 hi2 => h i2 (List.mem_cons_of_mem i hi2))
        rw [Prod.ext_iff, Prod.ext_iff] at he
        simp only [checkLoop, specScan, hL]
        refine ⟨?_, h2, h3⟩
        simpa using he

/-- C1: on the check path (snapshot obtained, jitter not fired, hash already
marked), confirm_one scans the outputs paying the wallet address in output
order exactly as the spec describes: a coin the ledger reports confirmed at
some height is inserted into the unspent set at that height and the hash of
the transaction is removed from the retransmission-marker set, and the scan
stops at the first output reported unconfirmed; the step returns Ok and
retransmits nothing.  Stated for ledgers whose get_coin queries report a
status (do not fail) on the scanned coins. -/
theorem c1_check_path (w : WalletData) (sent : Finset Nat) (L : Ledger) (txIdx j : Nat)
    (tx : Transaction)
    (hne : w.tx_in_progress.map Prod.snd ≠ [])
    (hsnap : L.snapshotOk = true)
    (htx : (w.tx_in_progress.map Prod.snd).getD txIdx ⟨0, []⟩ = tx)
    (hj : j ≠ 0)
    (hmem : tx.hash_nosigs ∈ sent)
    (hnoerr : ∀ i ∈ changeIndexes tx w.my_covenant.hash,
      L.getCoin (tx.output_coinid (i % 256)) ≠ none) :
    ((confirm_one w sent L txIdx j).wallet, (confirm_one w sent L txIdx j).sent,
        (confirm_one w sent L txIdx j).queried)
        = specScan L tx.hash_nosigs
            ((changeIndexes tx w.my_covenant.hash).map (fun i => tx.output_coinid (i % 256)))
            w sent
      ∧ (confirm_one w sent L txIdx j).err = false
      ∧ (confirm_one w sent L txIdx j).sentTx = none := by
  have hc : confirm_one w sent L txIdx j
      = checkLoop L tx (changeIndexes tx w.my_covenant.hash) w sent := by
    simp only [confirm_one]
    rw [if_neg hne, if_pos hsnap, htx, if_neg hj, if_pos hmem]
  rw [hc]
  exact checkLoop_eq_specScan L tx _ w sent hnoerr

/-- C1 witness: the theorem applied to a concrete wallet, ledger and
retransmitted set. -/
theorem c1_check_path_witness :
    ((confirm_one walletW {5} ledgerW 0 1).wallet, (confirm_one walletW {5} ledgerW 0 1).sent,
        (confirm_one walletW {5} ledgerW 0 1).queried)
        = specScan ledgerW txW.hash_nosigs
            ((changeIndexes txW walletW.my_covenant.hash).map
              (fun i => txW.output_coinid (i % 256)))
            walletW {5}
      ∧ (confirm_one walletW {5} ledgerW 0 1).err = false
      ∧ (confirm_one walletW {5} ledgerW 0 1).sentTx = none :=
  c1_check_path walletW {5} ledgerW 0 1 txW (by decide) rfl (by decide) (by decide) (by decide)
    (by decide)

/-- C2: once the retransmit-vs-check decision is reached, the chosen in-flight
transaction is retransmitted whenever the 1-in-10 jitter fires (the u8 draw j
from 0..10 equals 0) or its hash is not yet in the process-wide retransmitted
set; in particular a first pass (hash not yet marked) always retransmits and
never takes the check path (no coin queried, wallet untouched). -/
theorem c2_retransmit (w : WalletData) (sent : Finset Nat) (L : Ledger) (txIdx j : Nat)
    (tx : Transaction)
    (hne : w.tx_in_progress.map Prod.snd ≠ [])
    (hsnap : L.snapshotOk = true)
    (htx : (w.tx_in_progress.map Prod.snd).getD txIdx ⟨0, []⟩ = tx)
    (hj10 : j < 10)
    (hcase : j = 0 ∨ tx.hash_nosigs ∉ sent) :
    (confirm_one w sent L txIdx j).sentTx = some tx
      ∧ (confirm_one w sent L txIdx j).queried = []
      ∧ (confirm_one w sent L txIdx j).err = false
      ∧ (confirm_one w sent L txIdx j).wallet = w := by
  by_cases h0 : j = 0
  · simp only [confirm_one]
    rw [if_neg hne, if_pos hsnap, htx, if_pos h0]
    exact ⟨rfl, rfl, rfl, rfl⟩
  · have hnm : tx.hash_nosigs ∉ sent := hcase.resolve_left h0
    simp only [confirm_one]
    rw [if_neg hne, if_pos hsnap, htx, if_neg h0, if_neg hnm]
    exact ⟨rfl, rfl, rfl, rfl⟩

/-- C2 witness: first pass for the hash of txW (empty retransmitted set). -/
theorem c2_retransmit_witness :
    (confirm_one walletW ∅ ledgerW 0 1).sentTx = some txW
      ∧ (confirm_one walletW ∅ ledgerW 0 1).queried = []
      ∧ (confirm_one walletW ∅ ledgerW 0 1).err = false
      ∧ (confirm_one walletW ∅ ledgerW 0 1).wallet = walletW :=
  c2_retransmit walletW ∅ ledgerW 0 1 txW (by decide) rfl (by decide) (by decide)
    (Or.inr (by decide))

/-- C3: if the snapshot of the remote ledger cannot be obtained during a step
that has in-flight transactions, the step aborts with an error and mutates
nothing: wallet record, retransmitted set, network sends and coin queries are
all exactly as before. -/
theorem c3_snapshot_failure (w : WalletData) (sent : Finset Nat) (L : Ledger) (txIdx j : Nat)
    (hne : w.tx_in_progress.map Prod.snd ≠ [])
    (hsnap : L.snapshotOk = false) :
    (confirm_one w sent L txIdx j).err = true
      ∧ (confirm_one w sent L txIdx j).wallet = w
      ∧ (confirm_one w sent L txIdx j).sent = sent
      ∧ (confirm_one w sent L txIdx j).sentTx = none
      ∧ (confirm_one w sent L txIdx j).queried = [] := by
  simp only [confirm_one]
  rw [if_neg hne, if_neg (by simp [hsnap])]
  exact ⟨rfl, rfl, rfl, rfl, rfl⟩

/-- C3 witness: the theorem applied to a ledger whose snapshot call fails. -/
theorem c3_snapshot_failure_witness :
    (confirm_one walletW {5} ledgerDown 0 1).err = true
      ∧ (confirm_one walletW {5} ledgerDown 0 1).wallet = walletW
      ∧ (confirm_one walletW {5} ledgerDown 0 1).sent = {5}
      ∧ (confirm_one walletW {5} ledgerDown 0 1).sentTx = none
      ∧ (confirm_one walletW {5} ledgerDown 0 1).queried = [] :=
  c3_snapshot_failure walletW {5} ledgerDown 0 1 (by decide) rfl

/-- C10: the hash is inserted into the process-wide retransmitted set only on
a pass where the 1-in-10 jitter does not fire: a jitter pass (j = 0)
retransmits but leaves the set and the wallet unchanged (the disjunction
short-circuits before the insert), so the following non-jitter pass for a
still-unmarked hash retransmits again, inserting the hash, instead of taking
the check path. -/
theorem c10_jitter_unmarked (w : WalletData) (sent : Finset Nat) (L : Ledger) (txIdx j : Nat)
    (tx : Transaction)
    (hne : w.tx_in_progress.map Prod.snd ≠ [])
    (hsnap : L.snapshotOk = true)
    (htx : (w.tx_in_progress.map Prod.snd).getD txIdx ⟨0, []⟩ = tx)
    (hnew : tx.hash_nosigs ∉ sent)
    (hj : j ≠ 0) (hj10 : j < 10) :
    ((confirm_one w sent L txIdx 0).sentTx = some tx
      ∧ (confirm_one w sent L txIdx 0).sent = sent
      ∧ (confirm_one w sent L txIdx 0).wallet = w)
    ∧ ((confirm_one w sent L txIdx j).sentTx = some tx
      ∧ (confirm_one w sent L txIdx j).sent = insert tx.hash_nosigs sent
      ∧ (confirm_one w sent L txIdx j).queried = []) := by
  constructor
  · simp only [confirm_one]
    rw [if_neg hne, if_pos hsnap, htx, if_pos trivial]
    exact ⟨rfl, rfl, rfl⟩
  · simp only [confirm_one]
    rw [if_neg hne, if_pos hsnap, htx, if_neg hj, if_neg hnew]
    exact ⟨rfl, rfl, rfl⟩

/-- C10 witness: a jitter pass followed by a non-jitter pass on concrete
state. -/
theorem c10_jitter_unmarked_witness :
    ((confirm_one walletW ∅ ledgerW 0 0).sentTx = some txW
      ∧ (confirm_one walletW ∅ ledgerW 0 0).sent = ∅
      ∧ (confirm_one walletW ∅ ledgerW 0 0).wallet = walletW)
    ∧ ((confirm_one walletW ∅ ledgerW 0 3).sentTx = some txW
      ∧ (confirm_one walletW ∅ ledgerW 0 3).sent = insert txW.hash_nosigs ∅
      ∧ (confirm_one walletW ∅ ledgerW 0 3).queried = []) :=
  c10_jitter_unmarked walletW ∅ ledgerW 0 3 txW (by decide) rfl (by decide) (by decide)
    (by decide) (by decide)

/-- C4: unlock on a Plaintext secret record succeeds for any password
(supplied or absent) and installs the signer for that name, overwriting any
prior one; unlock on a PasswordEncrypted record with a missing or wrong
password fails and changes no state, so get_signer answers exactly as
before; unlock with the correct password succeeds and get_signer then
returns the decrypted capability.  The secrets module is modelled from the
spec (it is not under src/). -/
theorem c4_unlock_machine (secrets : String → Option PersistentSecret) (signers : Signers) :
    (∀ name sk pwd, secrets name = some (.plaintext sk) →
      (AppState.unlock_signer secrets signers name pwd).1 = some ()
        ∧ AppState.get_signer (AppState.unlock_signer secrets signers name pwd).2 name = some sk)
    ∧ (∀ name enc pwd, secrets name = some (.passwordEncrypted enc) →
        (pwd = none ∨ ∃ p, pwd = some p ∧ p ≠ enc.password) →
        (AppState.unlock_signer secrets signers name pwd).1 = none
          ∧ (AppState.unlock_signer secrets signers name pwd).2 = signers
          ∧ AppState.get_signer (AppState.unlock_signer secrets signers name pwd).2 name
              = AppState.get_signer signers name)
    ∧ (∀ name enc, secrets name = some (.passwordEncrypted enc) →
        (AppState.unlock_signer secrets signers name (some enc.password)).1 = some ()
          ∧ AppState.get_signer
              (AppState.unlock_signer secrets signers name (some enc.password)).2 name
              = some enc.key) := by
  refine ⟨?_, ?_, ?_⟩
  · intro name sk pwd h
    simp [AppState.unlock_signer, h, AppState.get_signer, alookup_assocSet]
  · intro name enc pwd h hbad
    cases hbad with
    | inl h0 => subst h0; simp [AppState.unlock_signer, h]
    | inr h0 =>
      obtain ⟨p, hp, hne⟩ := h0
      subst hp
      simp [AppState.unlock_signer, h, EncryptedSK.decrypt, hne]
  · intro name enc h
    simp [AppState.unlock_signer, h, EncryptedSK.decrypt, AppState.get_signer, alookup_assocSet]

/-- C4 witness: concrete plaintext unlock, wrong-password failure and
correct-password unlock against the concrete secret store. -/
theorem c4_unlock_machine_witness :
    ((AppState.unlock_signer secretsW [] "plain" none).1 = some ()
      ∧ AppState.get_signer (AppState.unlock_signer secretsW [] "plain" none).2 "plain" = some 11)
    ∧ ((AppState.unlock_signer secretsW [] "enc" (some "bad")).1 = none
      ∧ (AppState.unlock_signer secretsW [] "enc" (some "bad")).2 = []
      ∧ AppState.get_signer (AppState.unlock_signer secretsW [] "enc" (some "bad")).2 "enc"
          = AppState.get_signer [] "enc")
    ∧ ((AppState.unlock_signer secretsW [] "enc" (some "pw")).1 = some ()
      ∧ AppState.get_signer (AppState.unlock_signer secretsW [] "enc" (some "pw")).2 "enc"
          = some 13) := by
  have h := c4_unlock_machine secretsW []
  exact ⟨h.1 "plain" 11 none (by decide),
    h.2.1 "enc" ⟨13, "pw"⟩ (some "bad") (by decide) (Or.inr ⟨"bad", rfl, by decide⟩),
    h.2.2 "enc" ⟨13, "pw"⟩ (by decide)⟩

/-- C5 counterexample: the claim says get on an invalid name fails with
InvalidName before any filesystem access; in the source get_wallet validates
nothing: on the invalid name "bad name" it touches the filesystem (second
component true) and does not produce an invalid-name error. -/
theorem c5_counterexample :
    valid_wallet_name "bad name" = false
      ∧ (MultiWallet.get_wallet [] [] "bad name").2 = true
      ∧ (MultiWallet.get_wallet [] [] "bad name").1 ≠ GetOutcome.err StoreError.invalidName := by
  decide

/-- C5 amended: get_wallet performs no name validation at all: it never fails
with InvalidName, and on a cache miss it always reaches the filesystem,
whatever the name. -/
theorem c5_get_no_validation (cache : List (String × WalletData)) (fs : Fs) (name : String) :
    (MultiWallet.get_wallet cache fs name).1 ≠ GetOutcome.err StoreError.invalidName
      ∧ (alookup cache name = none → (MultiWallet.get_wallet cache fs name).2 = true) := by
  constructor
  · cases hc : alookup cache name with
    | some w => simp [MultiWallet.get_wallet, hc]
    | none =>
      cases hf : alookup fs (name ++ ".json") with
      | none => simp [MultiWallet.get_wallet, hc, hf]
      | some o => cases o <;> simp [MultiWallet.get_wallet, hc, hf]
  · intro hc
    cases hf : alookup fs (name ++ ".json") with
    | none => simp [MultiWallet.get_wallet, hc, hf]
    | some o => cases o <;> simp [MultiWallet.get_wallet, hc, hf]

/-- C5 witness: an invalid (path-traversal style) name on an empty cache. -/
theorem c5_get_no_validation_witness :
    (MultiWallet.get_wallet [] fsW "w/../x").1 ≠ GetOutcome.err StoreError.invalidName
      ∧ (MultiWallet.get_wallet [] fsW "w/../x").2 = true := by
  have h := c5_get_no_validation [] fsW "w/../x"
  exact ⟨h.1, h.2 (by decide)⟩

/-- A name containing a character that is neither ASCII alphanumeric nor an
underscore makes create_wallet fail with the invalid-name error. -/
theorem create_invalid_of_bad_char (fs : Fs) (name : String) (cov : Covenant)
    (h : ∃ c ∈ name.data, (c.isAlphanum || c == '_') = false) :
    MultiWallet.create_wallet fs name cov = CreateOutcome.err StoreError.invalidName := by
  obtain ⟨c, hc, hbad⟩ := h
  have hv : valid_wallet_name name = false := by
    cases h2 : valid_wallet_name name
    · rfl
    · rw [valid_wallet_name, List.all_eq_true] at h2
      rw [h2 c hc] at hbad
      cases hbad
  simp [MultiWallet.create_wallet, hv]

/-- C6 counterexample: the claim includes the empty name among the invalid
ones, but the all-characters check is vacuously true on the empty name, so
create accepts it and writes the file ".json". -/
theorem c6_counterexample :
    valid_wallet_name "" = true
      ∧ MultiWallet.create_wallet [] "" covW
          = CreateOutcome.ok [(".json", some (WalletData.new covW))] := by
  decide

/-- C6 amended: create fails with InvalidName, writing nothing, for every
name containing a character outside the alphanumeric-or-underscore set; the
empty name, however, passes the vacuous validation and creates ".json". -/
theorem c6_create_validation (fs : Fs) (cov : Covenant) :
    (∀ name : String, (∃ c ∈ name.data, (c.isAlphanum || c == '_') = false) →
        MultiWallet.create_wallet fs name cov = CreateOutcome.err StoreError.invalidName)
      ∧ MultiWallet.create_wallet fs "" cov
          = CreateOutcome.ok (assocSet fs ("" ++ ".json") (some (WalletData.new cov))) := by
  constructor
  · intro name h
    exact create_invalid_of_bad_char fs name cov h
  · have hv : valid_wallet_name "" = true := by decide
    simp [MultiWallet.create_wallet, hv]

/-- C6 witness: a name with a space is rejected; the empty name is not. -/
theorem c6_create_validation_witness :
    MultiWallet.create_wallet fsW "bad name" covW = CreateOutcome.err StoreError.invalidName
      ∧ MultiWallet.create_wallet fsW "" covW
          = CreateOutcome.ok (assocSet fsW ("" ++ ".json") (some (WalletData.new covW))) := by
  have h := c6_create_validation fsW covW
  exact ⟨h.1 "bad name" ⟨' ', by decide, by decide⟩, h.2⟩

/-- C7 counterexample: an unreadable wallet directory makes list panic
(unwrap), not return an error; and a wallet file that is present but fails
to load is silently omitted by list_wallets, with no error surfaced. -/
theorem c7_counterexample :
    MultiWallet.listRun none = ListOutcome.panicked
      ∧ AppState.list_wallets [] [("w.json", none)] = [] := by
  decide

/-- C7 amended: get_wallet reports open failures and create_wallet reports
invalid names as error values, but list panics when the directory read
fails, and list_wallets silently omits a listed wallet whose load fails
rather than surfacing it to the caller. -/
theorem c7_error_reporting (cache : List (String × WalletData)) (fs : Fs) (cov : Covenant)
    (entries : List String) :
    MultiWallet.listRun none = ListOutcome.panicked
      ∧ MultiWallet.listRun (some entries) = ListOutcome.ok (MultiWallet.list entries)
      ∧ (∀ name : String, alookup cache name = none → alookup fs (name ++ ".json") = none →
          (MultiWallet.get_wallet cache fs name).1 = GetOutcome.err StoreError.ioError)
      ∧ (∀ name : String, alookup cache name = none → alookup fs (name ++ ".json") = some none →
          (MultiWallet.get_wallet cache fs name).1 = GetOutcome.err StoreError.ioError)
      ∧ (∀ name : String, (∃ c ∈ name.data, (c.isAlphanum || c == '_') = false) →
          MultiWallet.create_wallet fs name cov = CreateOutcome.err StoreError.invalidName)
      ∧ (∀ n ∈ MultiWallet.list (fs.map Prod.fst),
          (MultiWallet.get_wallet cache fs n).1 = GetOutcome.err StoreError.ioError →
          n ∉ (AppState.list_wallets cache fs).map Prod.fst) := by
  refine ⟨rfl, rfl, ?_, ?_, ?_, ?_⟩
  · intro name hc hf
    simp [MultiWallet.get_wallet, hc, hf]
  · intro name hc hf
    simp [MultiWallet.get_wallet, hc, hf]
  · intro name h
    exact create_invalid_of_bad_char fs name cov h
  · intro n hn hg hmem
    rw [List.mem_map] at hmem
    obtain ⟨pair, hpair, hfst⟩ := hmem
    rw [AppState.list_wallets, List.mem_filterMap] at hpair
    obtain ⟨v, hv, heq⟩ := hpair
    cases hgv : (MultiWallet.get_wallet cache fs v).1 with
    | err e => rw [hgv] at heq; cases heq
    | ok w2 =>
      rw [hgv] at heq
      injection heq with heq2
      rw [← heq2] at hfst
      rw [← hfst] at hg
      rw [hg] at hgv
      cases hgv

/-- C7 witness: the amended statement applied to the concrete directory with
one loadable and one unloadable wallet. -/
theorem c7_error_reporting_witness :
    MultiWallet.listRun none = ListOutcome.panicked
      ∧ MultiWallet.listRun (some ["a.jsonb.json"])
          = ListOutcome.ok (MultiWallet.list ["a.jsonb.json"])
      ∧ (MultiWallet.get_wallet [] fsW "missing").1 = GetOutcome.err StoreError.ioError
      ∧ (MultiWallet.get_wallet [] fsW "bad").1 = GetOutcome.err StoreError.ioError
      ∧ MultiWallet.create_wallet fsW "bad name" covW = CreateOutcome.err StoreError.invalidName
      ∧ "bad" ∉ (AppState.list_wallets [] fsW).map Prod.fst := by
  have h := c7_error_reporting [] fsW covW ["a.jsonb.json"]
  exact ⟨h.1, h.2.1, h.2.2.1 "missing" (by decide) (by decide),
    h.2.2.2.1 "bad" (by decide) (by decide),
    h.2.2.2.2.1 "bad name" ⟨' ', by decide, by decide⟩,
    h.2.2.2.2.2 "bad" (by decide) (by decide)⟩

/-- C8 counterexample: the directory entry "a.jsonb.json" yields the listed
name "ab" (replace deletes every ".json" occurrence, not just the final
extension), yet no file "ab.json" is in the directory. -/
theorem c8_counterexample :
    MultiWallet.list ["a.jsonb.json"] = ["ab"]
      ∧ ("ab" ++ ".json") ∉ ["a.jsonb.json"] := by
  decide

/-- C8 amended: every name returned by list consists only of alphanumerics
and underscores and arises from some directory entry ending in ".json" by
deleting every occurrence of ".json" from it; when ".json" occurs only as
the final extension (as for any valid name followed by the extension),
deletion coincides with stripping the extension. -/
theorem c8_list_names (entries : List String) :
    (∀ n ∈ MultiWallet.list entries,
      valid_wallet_name n = true
        ∧ ∃ e ∈ entries, ends_with_json e = true ∧ String.mk (stripJson e.data) = n)
    ∧ (∀ l : List Char, (∀ c ∈ l, (c.isAlphanum || c == '_') = true) →
        stripJson (l ++ jsonExt) = l) := by
  constructor
  · intro n hn
    rw [MultiWallet.list, List.mem_filter] at hn
    obtain ⟨hn1, hval⟩ := hn
    rw [List.mem_map] at hn1
    obtain ⟨e, he, heq⟩ := hn1
    rw [List.mem_filter] at he
    exact ⟨hval, e, he.1, he.2, heq⟩
  · intro l
    induction l with
    | nil => intro _; rfl
    | cons c l2 ih =>
      intro hl
      have hc : c ≠ '.' := by
        intro hcc
        have h2 := hl c (List.mem_cons_self c l2)
        rw [hcc] at h2
        exact absurd h2 (by decide)
      rw [List.cons_append, stripJson_cons_ne_dot c (l2 ++ jsonExt) hc,
        ih (fun c2 h2 => hl c2 (List.mem_cons_of_mem c h2))]

/-- C8 witness: the listed name "w" of entry "w.json", and extension
stripping on the valid name character list. -/
theorem c8_list_names_witness :
    (valid_wallet_name "w" = true
      ∧ ∃ e ∈ ["w.json"], ends_with_json e = true ∧ String.mk (stripJson e.data) = "w")
    ∧ stripJson (['w'] ++ jsonExt) = ['w'] := by
  have h := c8_list_names ["w.json"]
  exact ⟨h.1 "w" (by decide), h.2 ['w'] (by decide)⟩

/-- C9: the daemon-level create refuses (returns None, writing nothing) every
name already a key of list_wallets, and only for an absent (valid) name does
it create the record from the freshly generated key; the store-level
create_wallet, by contrast, succeeds on a valid name unconditionally,
overwriting any same-named record (assocSet replaces the stored value). -/
theorem c9_no_overwrite (cache : List (String × WalletData)) (fs : Fs) (pk sk : Nat) :
    (∀ name : String, name ∈ (AppState.list_wallets cache fs).map Prod.fst →
        AppState.create_wallet cache fs name pk sk = (none, fs))
      ∧ (∀ name : String, name ∉ (AppState.list_wallets cache fs).map Prod.fst →
          valid_wallet_name name = true →
          AppState.create_wallet cache fs name pk sk
            = (some sk, assocSet fs (name ++ ".json")
                (some (WalletData.new (Covenant.std_ed25519_pk_new pk)))))
      ∧ (∀ name : String, valid_wallet_name name = true →
          MultiWallet.create_wallet fs name (Covenant.std_ed25519_pk_new pk)
            = CreateOutcome.ok (assocSet fs (name ++ ".json")
                (some (WalletData.new (Covenant.std_ed25519_pk_new pk)))))
      ∧ (∀ (name : String) (v : Option WalletData),
          alookup (assocSet fs (name ++ ".json") v) (name ++ ".json") = some v) := by
  refine ⟨?_, ?_, ?_, ?_⟩
  · intro name hmem
    simp [AppState.create_wallet, hmem]
  · intro name hmem hval
    simp [AppState.create_wallet, hmem, MultiWallet.create_wallet, hval]
  · intro name hval
    simp [MultiWallet.create_wallet, hval]
  · intro name v
    exact alookup_assocSet fs (name ++ ".json") v

/-- C9 witness: on the concrete directory, creating the existing name "w"
refuses and writing the fresh name succeeds; the store-level create on "w"
overwrites. -/
theorem c9_no_overwrite_witness :
    AppState.create_wallet [] fsW "w" 3 4 = (none, fsW)
      ∧ AppState.create_wallet [] fsW "fresh" 3 4
          = (some 4, assocSet fsW ("fresh" ++ ".json")
              (some (WalletData.new (Covenant.std_ed25519_pk_new 3))))
      ∧ MultiWallet.create_wallet fsW "w" (Covenant.std_ed25519_pk_new 3)
          = CreateOutcome.ok (assocSet fsW ("w" ++ ".json")
              (some (WalletData.new (Covenant.std_ed25519_pk_new 3))))
      ∧ alookup (assocSet fsW ("w" ++ ".json") (some (WalletData.new covW))) ("w" ++ ".json")
          = some (some (WalletData.new covW)) := by
  have h := c9_no_overwrite [] fsW 3 4
  exact ⟨h.1 "w" (by decide), h.2.1 "fresh" (by decide) (by decide),
    h.2.2.1 "w" (by decide), h.2.2.2 "w" (some (WalletData.new covW))⟩
